import Mathlib

/-!
Shallow embedding of the netventory network-discovery engine
(`scanner/scanner.go`, `scanner/mac.go`, and the TUI/web callers), together
with theorems settling the specification claims.

Go strings are modelled as `List Nat` of their bytes (Go `len`, indexing and
slicing are byte-based).  `strBytes` converts an ASCII Lean string literal to
that representation for concrete inputs.  Machine integers (`int32`) are
modelled as `Int`; network byte buffers as `List Nat`.
-/

/-- Bytes of an ASCII string literal, for concrete test inputs. -/
def strBytes (s : String) : List Nat := s.toList.map Char.toNat

/-- ASCII model of Go `strings.ToUpper` applied byte-wise: maps `a`-`z`
(97-122) to `A`-`Z`; every other byte is unchanged.  All strings the scanner
normalises (hex MAC tokens) are ASCII, where this coincides with Go's
Unicode uppercase. -/
def upAscii (b : Nat) : Nat := if 97 ≤ b ∧ b ≤ 122 then b - 32 else b

/-- Separator bytes removed by `NormalizeMACAddress`: `:` `-` `.` -/
def isMacSep (b : Nat) : Bool := b == 58 || b == 45 || b == 46

/-- Hex-digit bytes `[0-9A-Fa-f]`, the character class of the ARP MAC regex. -/
def isHexB (b : Nat) : Bool :=
  (48 ≤ b && b ≤ 57) || (97 ≤ b && b ≤ 102) || (65 ≤ b && b ≤ 70)

/-- Uppercase hex-digit bytes `[0-9A-F]`, the class of the canonical MAC
regex `^[0-9A-F]{2}(:[0-9A-F]{2}){5}$`. -/
def isUpHexB (b : Nat) : Bool := (48 ≤ b && b ≤ 57) || (65 ≤ b && b ≤ 70)

/-- The per-rune colon-insertion loop of `NormalizeMACAddress`
(`mac.go` lines 79-85): before the character at index `i` with `i > 0` and
`i` even, a `:` (58) is emitted. -/
def insertColonsFrom : Nat → List Nat → List Nat
  | _, [] => []
  | i, b :: bs =>
    (if 0 < i ∧ i % 2 = 0 then [58, b] else [b]) ++ insertColonsFrom (i + 1) bs

/-- `NormalizeMACAddress` (`mac.go` lines 69-88): uppercase, remove the
separators `:` `-` `.`, then re-insert `:` every two characters. -/
def NormalizeMACAddress (mac : List Nat) : List Nat :=
  insertColonsFrom 0 (((mac.map upAscii).filter (fun b => !(isMacSep b))))

/-- `LookupVendor` (`mac.go` lines 91-100): re-normalise; empty ↦
`"Unknown"`, anything else ↦ `"Unknown Vendor"` (no OUI table is
consulted). -/
def LookupVendor (mac : List Nat) : List Nat :=
  if NormalizeMACAddress mac = [] then strBytes "Unknown"
  else strBytes "Unknown Vendor"

/-- Canonical-MAC check `^[0-9A-F]{2}(:[0-9A-F]{2}){5}$` (spec §3
invariant 6). -/
def isCanonicalMAC : List Nat → Bool
  | [a1, a2, s1, b1, b2, s2, c1, c2, s3, d1, d2, s4, e1, e2, s5, f1, f2] =>
    isUpHexB a1 && isUpHexB a2 && s1 == 58 &&
    isUpHexB b1 && isUpHexB b2 && s2 == 58 &&
    isUpHexB c1 && isUpHexB c2 && s3 == 58 &&
    isUpHexB d1 && isUpHexB d2 && s4 == 58 &&
    isUpHexB e1 && isUpHexB e2 && s5 == 58 &&
    isUpHexB f1 && isUpHexB f2
  | _ => false

/-- Group-separator bytes of the ARP extraction regex
`([0-9A-Fa-f]{1,2}[:-]){5}[0-9A-Fa-f]{1,2}`: `:` or `-`. -/
def isTokSep (b : Nat) : Bool := b == 58 || b == 45

/-- Split a byte string at the regex separators `:`/`-`, keeping empty
groups (used to state what it means for a token to match the ARP regex). -/
def splitTokSep : List Nat → List (List Nat)
  | [] => [[]]
  | b :: bs =>
    if isTokSep b then [] :: splitTokSep bs
    else
      match splitTokSep bs with
      | [] => [[b]]
      | g :: gs => (b :: g) :: gs

/-- A byte string matches the ARP MAC regex
`([0-9A-Fa-f]{1,2}[:-]){5}[0-9A-Fa-f]{1,2}` (as a full match) iff it splits
at `:`/`-` into exactly six groups of one or two hex digits. -/
def isARPToken (bs : List Nat) : Bool :=
  (splitTokSep bs).length == 6 &&
  (splitTokSep bs).all (fun g => decide (0 < g.length) && decide (g.length ≤ 2) && g.all isHexB)

/-- The pure tail of `GetMACFromIP` (`mac.go` lines 40-63): if the ARP
regex finds a token in the `arp` output, the function returns its
normalisation; otherwise it returns the empty string.  `found` is the
regex search result. -/
def getMACFromARP (found : Option (List Nat)) : List Nat :=
  match found with
  | some tok => NormalizeMACAddress tok
  | none => []

/-- The worker's MAC/vendor assignment (`scanner.go` lines 228-241): the
`MACAddress` and `Vendor` fields are set only when `GetMACFromIP` returns a
non-empty string; otherwise both keep their zero value `""`. -/
def workerMacVendor (found : Option (List Nat)) : List Nat × List Nat :=
  let mac := getMACFromARP found
  if mac ≠ [] then (mac, LookupVendor mac) else ([], [])

/-- Characters kept by `cleanHostname`'s `strings.Map` step:
`[A-Za-z0-9-]`. -/
def isAllowedHostB (b : Nat) : Bool :=
  (97 ≤ b && b ≤ 122) || (65 ≤ b && b ≤ 90) || (48 ≤ b && b ≤ 57) || b == 45

/-- ASCII letters `[A-Za-z]`, the first-character test of
`isValidHostname`. -/
def isAsciiLetterB (b : Nat) : Bool :=
  (97 ≤ b && b ≤ 122) || (65 ≤ b && b ≤ 90)

/-- ASCII letters or digits, the last-character test of
`isValidHostname`. -/
def isAsciiAlnumB (b : Nat) : Bool :=
  isAsciiLetterB b || (48 ≤ b && b ≤ 57)

/-- The characters of Go `strings.ContainsAny(s, "\\/:*?\"<>|@")` used by
`isValidHostname`. -/
def isForbiddenHostB (b : Nat) : Bool :=
  b == 92 || b == 47 || b == 58 || b == 42 || b == 63 ||
  b == 34 || b == 60 || b == 62 || b == 124 || b == 64

/-- `cleanHostname` (`scanner.go` lines 1018-1039): drop everything from the
first `:` on, take the label before the first `.`, then keep only
`[A-Za-z0-9-]` characters (Go `strings.Map` returning -1 drops a rune). -/
def cleanHostname (name : List Nat) : List Nat :=
  (((name.takeWhile (fun b => !(b == 58))).takeWhile
      (fun b => !(b == 46))).filter isAllowedHostB)

/-- `isValidHostname` (`scanner.go` lines 1041-1056): length 2-63, first
byte a letter, last byte alphanumeric, and none of `\/:*?"<>|@`. -/
def isValidHostname (s : List Nat) : Bool :=
  if s.length < 2 || 63 < s.length then false
  else if !(isAsciiLetterB (s.getD 0 0)) then false
  else if !(isAsciiAlnumB (s.getD (s.length - 1) 0)) then false
  else !(s.any isForbiddenHostB)

/-- The validation rule of spec §4.4 as the claim C2 states it: length 2-63,
first character a letter, last character alphanumeric, and only characters
from `[A-Za-z0-9-]`. -/
def specValidHostname (s : List Nat) : Bool :=
  decide (2 ≤ s.length) && decide (s.length ≤ 63) &&
  isAsciiLetterB (s.getD 0 0) &&
  isAsciiAlnumB (s.getD (s.length - 1) 0) &&
  s.all isAllowedHostB

/-- Trim the bytes of `set` from the right end of `s`
(Go `strings.TrimRight`). -/
def trimRightSet (set : List Nat) (s : List Nat) : List Nat :=
  (s.reverse.dropWhile (fun b => set.contains b)).reverse

/-- `bs` starts with `pre` (helper for the substring test below). -/
def leadsWith : List Nat → List Nat → Bool
  | [], _ => true
  | _ :: _, [] => false
  | a :: as, b :: bs => a == b && leadsWith as bs

/-- `needle` occurs as a contiguous substring of `hay`
(Go `strings.Contains`). -/
def containsSub (needle : List Nat) : List Nat → Bool
  | [] => leadsWith needle []
  | b :: bs => leadsWith needle (b :: bs) || containsSub needle bs

/-- The banner-parsing part of `getAFPHostname` (`scanner.go` lines
1081-1096): if the banner contains `"AFP"` and a `(`, the hostname is the
text between the first two `(`s trimmed of `)`, CR and LF on the right;
a non-empty result is returned as-is (no cleaning, no validation). -/
def getAFPHostname_parse (banner : List Nat) : Option (List Nat) :=
  if containsSub (strBytes "AFP") banner then
    if banner.contains 40 then
      let part1 := ((banner.dropWhile (fun b => !(b == 40))).drop 1).takeWhile
        (fun b => !(b == 40))
      let hostname := trimRightSet [41, 13, 10] part1
      if hostname ≠ [] then some hostname else none
    else none
  else none

/-- The worker's AFP branch (`scanner.go` lines 269-278): on success the
returned banner hostname is stored directly in `device.Hostname`. -/
def workerAFPHostnames (banner : List Nat) : List (List Nat) :=
  match getAFPHostname_parse banner with
  | some h => [h]
  | none => []

/-- The per-candidate acceptance test of `extractHostnameFromCert`
(`scanner.go` lines 998-1011): skip empty names and names containing `*`;
clean; require the cleaned name non-empty and `isValidHostname`. -/
def extractCandidate (name : List Nat) : Option (List Nat) :=
  if name ≠ [] ∧ !(name.contains 42) then
    if cleanHostname name ≠ [] ∧ isValidHostname (cleanHostname name) then
      some (cleanHostname name)
    else none
  else none

/-- `extractHostnameFromCert` (`scanner.go` lines 958-1015) restricted to
its pure candidate scan: the first accepted candidate is returned. -/
def extractHostnameFromCert (possibleNames : List (List Nat)) :
    Except String (List Nat) :=
  match possibleNames.findSome? extractCandidate with
  | some h => .ok h
  | none => .error "no valid hostname in certificate"

/-- `getNetBIOSName`'s pure response parsing (`scanner.go` lines 737-801).
`resp` is the received datagram; Go's `n` is its length.  Reject under 57
bytes; read `numNames` at byte 56; reject when shorter than
`57 + numNames*18`.  First pass: the first record with type `0x00`/`0x20`
and flags exactly `0x0400` whose trimmed-and-cleaned name is non-empty.
Second pass: same types, any flags without the `0x8000` group bit.  All
accesses use `getD`/`take`/`drop`, so the function is total on every byte
string (the Go indexing is guarded by the same two length checks). -/
def getNetBIOSName_parse (resp : List Nat) : Except String (List Nat) :=
  if resp.length < 57 then .error "response too short"
  else
    if resp.length < 57 + (resp.getD 56 0) * 18 then .error "incomplete response"
    else
      match (List.range (resp.getD 56 0)).findSome? (fun i =>
        if (resp.getD (57 + i * 18 + 15) 0 = 0 ∨ resp.getD (57 + i * 18 + 15) 0 = 32) ∧
            (resp.getD (57 + i * 18 + 16) 0) * 256 + resp.getD (57 + i * 18 + 17) 0 = 1024 then
          if cleanHostname (trimRightSet [32, 0] ((resp.drop (57 + i * 18)).take 15)) ≠ [] then
            some (cleanHostname (trimRightSet [32, 0] ((resp.drop (57 + i * 18)).take 15)))
          else none
        else none) with
      | some h => .ok h
      | none =>
        match (List.range (resp.getD 56 0)).findSome? (fun i =>
          if ((resp.getD (57 + i * 18 + 16) 0) * 256 + resp.getD (57 + i * 18 + 17) 0) &&& 32768 ≠ 0 then
            none
          else if resp.getD (57 + i * 18 + 15) 0 = 0 ∨ resp.getD (57 + i * 18 + 15) 0 = 32 then
            if cleanHostname (trimRightSet [32, 0] ((resp.drop (57 + i * 18)).take 15)) ≠ [] then
              some (cleanHostname (trimRightSet [32, 0] ((resp.drop (57 + i * 18)).take 15)))
            else none
          else none) with
        | some h => .ok h
        | none => .error "no NetBIOS name found"

/-- The NBNS record table as the spec describes it: for
`i ∈ [0, num_names)` the record at `57 + 18*i` is 15 name bytes, one type
byte and a big-endian 16-bit flags word. -/
def nbRecord (resp : List Nat) (i : Nat) : List Nat × Nat × Nat :=
  ((resp.drop (57 + i * 18)).take 15,
   resp.getD (57 + i * 18 + 15) 0,
   (resp.getD (57 + i * 18 + 16) 0) * 256 + resp.getD (57 + i * 18 + 17) 0)

/-- The name a record contributes: trimmed of spaces and NULs on the
right, then hostname-cleaned. -/
def nbClean (nm : List Nat) : List Nat := cleanHostname (trimRightSet [32, 0] nm)

/-- The amended claim C5, written as a parser over the record table: reject
inputs shorter than 57 bytes and inputs shorter than `57 + 18*num_names`;
otherwise return the cleaned name of the first record with type
`0x00`/`0x20`, flags exactly `0x0400` and a non-empty cleaned name, or
failing that of the first such-typed record whose flags lack the `0x8000`
group bit (again requiring a non-empty cleaned name). -/
def nbSpecParse (resp : List Nat) : Except String (List Nat) :=
  if resp.length < 57 then .error "response too short"
  else if resp.length < 57 + (resp.getD 56 0) * 18 then .error "incomplete response"
  else
    let recs := (List.range (resp.getD 56 0)).map (nbRecord resp)
    let pass1 := recs.findSome? (fun r =>
      if (r.2.1 = 0 ∨ r.2.1 = 32) ∧ r.2.2 = 1024 ∧ nbClean r.1 ≠ [] then
        some (nbClean r.1)
      else none)
    let pass2 := recs.findSome? (fun r =>
      if r.2.2 &&& 32768 = 0 ∧ (r.2.1 = 0 ∨ r.2.1 = 32) ∧ nbClean r.1 ≠ [] then
        some (nbClean r.1)
      else none)
    match pass1.orElse (fun _ => pass2) with
    | some h => .ok h
    | none => .error "no NetBIOS name found"

/-- A synthetic 75-byte NBNS response: `num_names = 1`, record name bytes
`"A B"` padded with 12 spaces, type `0x20`, flags `0x0400`. -/
def nbCounterexampleResp : List Nat :=
  List.replicate 56 0 ++ [1] ++ ([65, 32, 66] ++ List.replicate 12 32) ++ [32, 4, 0]

/-- The spec §8 scenario-3 response: 200 bytes, `num_names = 2`, first
record `"MACHINE"` (type `0x20`, flags `0x0400`), second record
`"WORKGROUP"` (type `0x00`, flags `0x8400`). -/
def nbScenario3Resp : List Nat :=
  List.replicate 56 0 ++ [2] ++
  (strBytes "MACHINE" ++ List.replicate 8 32) ++ [32, 4, 0] ++
  (strBytes "WORKGROUP" ++ List.replicate 6 32) ++ [0, 132, 0] ++
  List.replicate 107 0

/-- The 19-byte X.224 / RDP negotiation request sent by `getRDPHostname`
(`scanner.go` lines 809-824): TPKT header, COTP connection request, and an
RDP negotiation request asking for protocols `0x07`
(RDP + TLS + CredSSP). -/
def rdpRequest : List Nat :=
  [0x03, 0x00, 0x00, 0x13, 0x0e, 0xe0, 0x00, 0x00, 0x00, 0x00, 0x00,
   0x01, 0x00, 0x08, 0x00, 0x07, 0x00, 0x00, 0x00]

/-- `binary.LittleEndian.Uint32(response[15:19])` (`scanner.go` line
871). -/
def rdpSelectedProtocol (resp : List Nat) : Nat :=
  resp.getD 15 0 + resp.getD 16 0 * 256 + resp.getD 17 0 * 65536 +
    resp.getD 18 0 * 16777216

/-- The pure response handling of `getRDPHostname` (`scanner.go` lines
852-906): reject responses shorter than 19 bytes, with a bad TPKT magic,
or with a bad COTP CC byte; read the little-endian selected protocol at
bytes 15-18; `.ok` (proceed to the TLS branch) iff `protocol & 0x06 ≠ 0`,
else the "secure protocols not supported" error. -/
def getRDPHostname_parse (resp : List Nat) : Except String Nat :=
  if resp.length < 19 then .error "response too short"
  else if resp.getD 0 0 ≠ 3 ∨ resp.getD 1 0 ≠ 0 then .error "invalid TPKT header"
  else if resp.getD 5 0 ≠ 0xd0 then .error "invalid COTP header"
  else if rdpSelectedProtocol resp &&& 6 ≠ 0 then .ok (rdpSelectedProtocol resp)
  else .error "secure protocols not supported"

/-- The response handling as claim C6 words it: bytes 0-1 must be
`03 00`, byte 5 must be `d0`, and the TLS branch is entered iff the TLS
(`0x02`, bit 1) or CredSSP (`0x04`, bit 2) bit of the selected protocol is
set. -/
def rdpSpecParse (resp : List Nat) : Except String Nat :=
  if resp.length < 19 then .error "response too short"
  else if ¬(resp.getD 0 0 = 3 ∧ resp.getD 1 0 = 0) then .error "invalid TPKT header"
  else if resp.getD 5 0 ≠ 0xd0 then .error "invalid COTP header"
  else if (rdpSelectedProtocol resp).testBit 1 = true ∨
      (rdpSelectedProtocol resp).testBit 2 = true then
    .ok (rdpSelectedProtocol resp)
  else .error "secure protocols not supported"

/-- A valid RDP negotiation response header with the four protocol bytes
`p0 p1 p2 p3` at offsets 15-18 (used for the concrete scenarios). -/
def rdpResponse (p0 p1 p2 p3 : Nat) : List Nat :=
  [0x03, 0x00, 0x00, 0x13, 0x0e, 0xd0, 0x00, 0x00, 0x00, 0x00, 0x00,
   0x02, 0x00, 0x08, 0x00, p0, p1, p2, p3]

/-- `ipNet.Contains(x)` for the block with id `blk = base >> szLog` and
host-part width `szLog`: mask the candidate and compare
(`net.IPNet.Contains`). -/
def ipnetContains (blk szLog x : Nat) : Bool := x / 2 ^ szLog == blk

/-- `inc` (`scanner.go` lines 586-593): byte-wise increment with carry of
an IPv4 address, i.e. +1 modulo 2^32. -/
def inc32 (x : Nat) : Nat := (x + 1) % 2 ^ 32

/-- The enumeration loop of `GetAllIPs` (`scanner.go` line 575):
`for ip := base.Mask(mask); ipNet.Contains(ip); inc(ip)`.  The Go loop has
no fuel; `fuel` only bounds this total model, and `GetAllIPs` below passes
`2^32 + 1`, more steps than any terminating run of the Go loop can make
(a run that exhausts this fuel corresponds to a non-terminating Go
loop). -/
def ipLoop : Nat → Nat → Nat → Nat → List Nat
  | 0, _, _, _ => []
  | fuel + 1, blk, szLog, x =>
    if ipnetContains blk szLog x then x :: ipLoop fuel blk szLog (inc32 x) else []

/-- `GetAllIPs` (`scanner.go` lines 573-584): enumerate the block from the
masked base, then strip the first and last element when more than two
addresses were collected. -/
def GetAllIPs (base pfx : Nat) : List Nat :=
  let szLog := 32 - pfx
  let start := base / 2 ^ szLog * 2 ^ szLog
  let ips := ipLoop (2 ^ 32 + 1) (base / 2 ^ szLog) szLog start
  if ips.length > 2 then (ips.drop 1).dropLast else ips

/-- Go channel-close semantics for the scanner's `stopChan`: closing an
already-closed channel panics with "close of closed channel" (Go language
runtime).  The panic is modelled as `.error`. -/
def closeChan (closed : Bool) : Except String Bool :=
  if closed then .error "close of closed channel" else .ok true

/-- `Stop` (`scanner.go` lines 108-111): exactly `close(s.stopChan)` with
no guard, no `sync.Once` and no `select`; its state is whether `stopChan`
is already closed. -/
def Scanner.Stop (stopChanClosed : Bool) : Except String Bool :=
  closeChan stopChanClosed

/-- Minimal device record for the coordinator and sink state models. -/
structure DeviceRec where
  ip : List Nat
  up : Bool
deriving DecidableEq

/-- The scanner state read and written by `ScanNetwork`
(`scanner.go` lines 113-195). -/
structure ScannerState where
  devices : List (List Nat × DeviceRec)
  totalIPs : Int
  scannedCount : Int
  sentCount : Int
  stopChanGeneration : Nat
deriving DecidableEq

/-- `ScanNetwork`'s state effects (`scanner.go` lines 113-195): there is no
scan-in-progress check of any kind.  The function replaces `stopChan`,
parses the CIDR (returning the parse error on failure, before any other
effect is observable), then unconditionally resets `totalIPs`,
`scannedCount`, `sentCount` and the device map and spawns workers.
`cidrBlock` is the (base, prefix) result of `net.ParseCIDR`. -/
def ScanNetwork (st : ScannerState) (cidrBlock : Option (Nat × Nat))
    (workers : Nat) : Except String ScannerState :=
  match cidrBlock with
  | none => .error "invalid CIDR"
  | some (base, pfx) =>
    .ok { st with
      stopChanGeneration := st.stopChanGeneration + 1
      totalIPs := ((GetAllIPs base pfx).length : Int)
      scannedCount := 0
      sentCount := 0
      devices := [] }

/-- A scanner mid-scan: 40 of 254 IPs sent, 17 scanned, one device
recorded. -/
def runningScanState : ScannerState :=
  { devices := [(strBytes "10.0.0.5", ⟨strBytes "10.0.0.5", true⟩)]
    totalIPs := 254
    scannedCount := 17
    sentCount := 40
    stopChanGeneration := 1 }

/-- The web server scan state touched by `Server.StartScan` (the web
server source in this repository): a `scanActive` flag guarded by
`scanMutex`, plus the server's device list. -/
structure ServerState where
  scanActive : Bool
  devices : List (List Nat × DeviceRec)
deriving DecidableEq

/-- `Server.StartScan` (web server source): under `scanMutex`, reject with
the error `"scan already in progress"` while `scanActive` is set, touching
nothing; otherwise set the flag, create a fresh scanner and reset the
device list before delegating to `ScanNetwork`. -/
def Server.StartScan (st : ServerState) : Except String ServerState :=
  if st.scanActive then .error "scan already in progress"
  else .ok { scanActive := true, devices := [] }

/-- The drain step of the scan-completion goroutine (`scanner.go` lines
179-183): after all workers have joined, `remaining = sentCount −
scannedCount` is credited to `scannedCount` when positive.  The int32
counters are modelled as `Int`. -/
def drainRemaining (sent scanned : Int) : Int :=
  if sent - scanned > 0 then scanned + (sent - scanned) else scanned

/-- The producer goroutine (`scanner.go` lines 157-168): IPs are enqueued
in enumeration order, incrementing `sentCount` per enqueue; when the stop
channel fires after `k` enqueues the producer closes the work channel
early, so `sentCount` ends at `min k total`; with no stop request it ends
at `total`. -/
def producerSent (total : Nat) (stopAfter : Option Nat) : Nat :=
  match stopAfter with
  | none => total
  | some k => min k total

/-- The global `scannedCount` at the moment the done signal is emitted:
workers incremented it once per fully processed IP (at most one per
dequeued IP, so `workerScanned ≤ sentCount`), then the completion
goroutine drains the difference (`scanner.go` lines 171-192). -/
def finalScannedCount (total : Nat) (stopAfter : Option Nat)
    (workerScanned : Nat) : Int :=
  drainRemaining (producerSent total stopAfter) workerScanned

/-- The sink state a worker touches when recording a probed IP
(`scanner.go` lines 356-408): the device map (a Go map modelled as an
association list where the most recent insert shadows, i.e. is found first
by `List.lookup`), the buffered results channel (capacity 100, consumer
modelled as idle — the worst case), and the logged
"Results channel full" warnings (by IP). -/
structure SinkState where
  devices : List (List Nat × DeviceRec)
  chanBuf : List DeviceRec
  warnings : List (List Nat)
deriving DecidableEq

/-- `resultsChan` capacity (`scanner.go` line 77:
`make(chan Device, 100)`). -/
def resultsChanCap : Nat := 100

/-- The worker's publish step for a reachable device (`scanner.go` lines
356-398): insert into the device map under `deviceMutex`, then a
non-blocking `select` send: if the channel has room the device is
enqueued; in the `default` branch the device is dropped from the stream
only and a warning is logged (the map insert has already happened). -/
def publishUp (st : SinkState) (d : DeviceRec) : SinkState :=
  if st.chanBuf.length < resultsChanCap then
    { st with devices := (d.ip, d) :: st.devices, chanBuf := st.chanBuf ++ [d] }
  else
    { st with
      devices := (d.ip, d) :: st.devices
      warnings := st.warnings ++ [d.ip] }

/-- The worker's per-IP recording step: reachable devices are published,
unreachable ones are only stored in the device map
(`scanner.go` lines 399-408). -/
def workerRecord (st : SinkState) (d : DeviceRec) : SinkState :=
  if d.up then publishUp st d
  else { st with devices := (d.ip, d) :: st.devices }

/-- Fold the worker recording steps over a completion-ordered list of
probed devices, starting from the fresh sink of a new scan. -/
def runSink (ds : List DeviceRec) : SinkState :=
  ds.foldl workerRecord ⟨[], [], []⟩

theorem upAscii_of_sep {b : Nat} (h : isTokSep b = true) : upAscii b = b := by
  simp only [isTokSep, Bool.or_eq_true, beq_iff_eq] at h
  rcases h with h | h <;> simp [upAscii, h]

theorem isMacSep_upAscii_of_hex {b : Nat} (h : isHexB b = true) :
    isMacSep (upAscii b) = false := by
  simp only [isHexB, Bool.or_eq_true, Bool.and_eq_true, decide_eq_true_eq] at h
  simp only [isMacSep, upAscii, Bool.or_eq_false_iff, beq_eq_false_iff_ne, ne_eq]
  refine ⟨⟨?_, ?_⟩, ?_⟩ <;> (split <;> omega)

theorem isMacSep_of_tokSep {b : Nat} (h : isTokSep b = true) :
    isMacSep b = true := by
  simp only [isTokSep, Bool.or_eq_true, beq_iff_eq] at h
  rcases h with h | h <;> simp [isMacSep, h]

theorem isUpHexB_upAscii_of_hex {b : Nat} (h : isHexB b = true) :
    isUpHexB (upAscii b) = true := by
  simp only [isHexB, Bool.or_eq_true, Bool.and_eq_true, decide_eq_true_eq] at h
  simp only [isUpHexB, upAscii, Bool.or_eq_true, Bool.and_eq_true, decide_eq_true_eq]
  split <;> omega

theorem isTokSep_of_hex {b : Nat} (h : isHexB b = true) : isTokSep b = false := by
  simp only [isHexB, Bool.or_eq_true, Bool.and_eq_true, decide_eq_true_eq] at h
  simp only [isTokSep, Bool.or_eq_false_iff, beq_eq_false_iff_ne, ne_eq]
  omega

/-- C7 (counterexample): the token `0:1:2:3:4:5` is matched in full by the
ARP extraction regex (single hex digits are allowed by `{1,2}`), yet
`NormalizeMACAddress` turns it into `01:23:45`, which does not match the
canonical form `^[0-9A-F]{2}(:[0-9A-F]{2}){5}$`.  So not every regex-matched
token normalises to a canonical MAC. -/
theorem normalizeMAC_single_digit_counterexample :
    isARPToken (strBytes "0:1:2:3:4:5") = true ∧
    NormalizeMACAddress (strBytes "0:1:2:3:4:5") = strBytes "01:23:45" ∧
    isCanonicalMAC (NormalizeMACAddress (strBytes "0:1:2:3:4:5")) = false := by
  decide

/-- C7 (amended): a token matched by the ARP regex in which every hex group
has exactly two digits (the shape produced by Linux/macOS `arp` for real
MACs) does normalise to the canonical form
`^[0-9A-F]{2}(:[0-9A-F]{2}){5}$`.  Tokens with a single-digit group do not
(see the counterexample). -/
theorem normalizeMAC_canonical_of_two_digit_groups
    (c1 c2 c3 c4 c5 c6 c7 c8 c9 c10 c11 c12 s1 s2 s3 s4 s5 : Nat)
    (hc : ([c1, c2, c3, c4, c5, c6, c7, c8, c9, c10, c11, c12]).all isHexB = true)
    (hs : ([s1, s2, s3, s4, s5]).all isTokSep = true) :
    isARPToken [c1, c2, s1, c3, c4, s2, c5, c6, s3,
      c7, c8, s4, c9, c10, s5, c11, c12] = true ∧
    isCanonicalMAC (NormalizeMACAddress [c1, c2, s1, c3, c4, s2, c5, c6, s3,
      c7, c8, s4, c9, c10, s5, c11, c12]) = true := by
  simp only [List.all_cons, List.all_nil, Bool.and_eq_true, and_true] at hc hs
  obtain ⟨h1, h2, h3, h4, h5, h6, h7, h8, h9, h10, h11, h12⟩ := hc
  obtain ⟨hs1, hs2, hs3, hs4, hs5⟩ := hs
  constructor
  · simp only [isARPToken, splitTokSep,
      isTokSep_of_hex h1, isTokSep_of_hex h2, isTokSep_of_hex h3,
      isTokSep_of_hex h4, isTokSep_of_hex h5, isTokSep_of_hex h6,
      isTokSep_of_hex h7, isTokSep_of_hex h8, isTokSep_of_hex h9,
      isTokSep_of_hex h10, isTokSep_of_hex h11, isTokSep_of_hex h12,
      hs1, hs2, hs3, hs4, hs5, if_true, if_false, Bool.false_eq_true]
    simp [h1, h2, h3, h4, h5, h6, h7, h8, h9, h10, h11, h12]
  · simp only [NormalizeMACAddress, List.map_cons, List.map_nil,
      List.filter_cons, List.filter_nil,
      isMacSep_upAscii_of_hex h1, isMacSep_upAscii_of_hex h2,
      isMacSep_upAscii_of_hex h3, isMacSep_upAscii_of_hex h4,
      isMacSep_upAscii_of_hex h5, isMacSep_upAscii_of_hex h6,
      isMacSep_upAscii_of_hex h7, isMacSep_upAscii_of_hex h8,
      isMacSep_upAscii_of_hex h9, isMacSep_upAscii_of_hex h10,
      isMacSep_upAscii_of_hex h11, isMacSep_upAscii_of_hex h12,
      upAscii_of_sep hs1, upAscii_of_sep hs2, upAscii_of_sep hs3,
      upAscii_of_sep hs4, upAscii_of_sep hs5,
      isMacSep_of_tokSep hs1, isMacSep_of_tokSep hs2, isMacSep_of_tokSep hs3,
      isMacSep_of_tokSep hs4, isMacSep_of_tokSep hs5]
    simp only [Bool.not_false, Bool.not_true, if_true, if_false]
    simp only [insertColonsFrom]
    norm_num [isCanonicalMAC,
      isUpHexB_upAscii_of_hex h1, isUpHexB_upAscii_of_hex h2,
      isUpHexB_upAscii_of_hex h3, isUpHexB_upAscii_of_hex h4,
      isUpHexB_upAscii_of_hex h5, isUpHexB_upAscii_of_hex h6,
      isUpHexB_upAscii_of_hex h7, isUpHexB_upAscii_of_hex h8,
      isUpHexB_upAscii_of_hex h9, isUpHexB_upAscii_of_hex h10,
      isUpHexB_upAscii_of_hex h11, isUpHexB_upAscii_of_hex h12]

/-- Witness for the amended C7 theorem at the concrete token
`AA:bb:cc:dd:ee:ff`. -/
theorem normalizeMAC_canonical_witness :
    isARPToken (strBytes "AA:bb:cc:dd:ee:ff") = true ∧
    isCanonicalMAC (NormalizeMACAddress (strBytes "AA:bb:cc:dd:ee:ff")) = true := by
  have h := normalizeMAC_canonical_of_two_digit_groups
    65 65 98 98 99 99 100 100 101 101 102 102 58 58 58 58 58
    (by decide) (by decide)
  exact h

theorem insertColonsFrom_eq_nil_iff (i : Nat) (bs : List Nat) :
    insertColonsFrom i bs = [] ↔ bs = [] := by
  cases bs with
  | nil => simp [insertColonsFrom]
  | cons b t =>
    simp only [insertColonsFrom, List.append_eq_nil]
    constructor
    · rintro ⟨hif, -⟩
      split at hif <;> simp at hif
    · intro h
      exact absurd h (List.cons_ne_nil b t)

theorem mem_insertColonsFrom {b : Nat} (bs : List Nat) (i : Nat)
    (h : b ∈ bs) : b ∈ insertColonsFrom i bs := by
  induction bs generalizing i with
  | nil => cases h
  | cons a t ih =>
    simp only [insertColonsFrom, List.mem_append]
    rcases List.mem_cons.mp h with h | h
    · left; split <;> simp [h]
    · right; exact ih (i + 1) h

theorem isMacSep_upAscii_of_not {b : Nat} (h : isMacSep b = false) :
    isMacSep (upAscii b) = false := by
  simp only [isMacSep, Bool.or_eq_false_iff, beq_eq_false_iff_ne, ne_eq] at h ⊢
  simp only [upAscii]
  split <;> omega

theorem normalizeMAC_ne_nil_of_ne_nil {s : List Nat}
    (h : NormalizeMACAddress s ≠ []) :
    NormalizeMACAddress (NormalizeMACAddress s) ≠ [] := by
  unfold NormalizeMACAddress at h ⊢
  set l := (s.map upAscii).filter (fun b => !(isMacSep b)) with hl
  have hlne : l ≠ [] := by
    intro hnil
    exact h (by rw [hnil]; rfl)
  obtain ⟨a, ha⟩ := List.exists_mem_of_ne_nil l hlne
  have ha' : a ∈ (s.map upAscii).filter (fun b => !(isMacSep b)) := hl ▸ ha
  have hpred : (!(isMacSep a)) = true := (List.mem_filter.mp ha').2
  have hsep : isMacSep a = false := by
    simpa using hpred
  have hmem1 : a ∈ insertColonsFrom 0 l := mem_insertColonsFrom l 0 ha
  have hmem2 : upAscii a ∈ (insertColonsFrom 0 l).map upAscii :=
    List.mem_map_of_mem upAscii hmem1
  have hmem3 : upAscii a ∈
      ((insertColonsFrom 0 l).map upAscii).filter (fun b => !(isMacSep b)) := by
    refine List.mem_filter.mpr ⟨hmem2, ?_⟩
    simp [isMacSep_upAscii_of_not hsep]
  intro hcontra
  rw [insertColonsFrom_eq_nil_iff] at hcontra
  rw [hcontra] at hmem3
  cases hmem3

/-- C10: `LookupVendor` never consults an OUI table: an input whose
normalisation is non-empty yields exactly `"Unknown Vendor"`, an input
normalising to the empty string yields `"Unknown"`; consequently in the
worker every device with a non-empty `mac` has vendor `"Unknown Vendor"`
and every device without a `mac` has an empty vendor field. -/
theorem lookupVendor_unknown_vendor :
    (∀ s : List Nat, NormalizeMACAddress s ≠ [] →
      LookupVendor s = strBytes "Unknown Vendor") ∧
    (∀ s : List Nat, NormalizeMACAddress s = [] →
      LookupVendor s = strBytes "Unknown") ∧
    (∀ found : Option (List Nat),
      ((workerMacVendor found).1 ≠ [] →
        (workerMacVendor found).2 = strBytes "Unknown Vendor") ∧
      ((workerMacVendor found).1 = [] → (workerMacVendor found).2 = [])) := by
  refine ⟨?_, ?_, ?_⟩
  · intro s h
    simp [LookupVendor, h]
  · intro s h
    simp [LookupVendor, h]
  · intro found
    cases found with
    | none => simp [workerMacVendor, getMACFromARP]
    | some tok =>
      simp only [workerMacVendor, getMACFromARP]
      by_cases h : NormalizeMACAddress tok = []
      · simp [h]
      · constructor
        · intro _
          simp only [ne_eq, h, not_false_iff, if_true]
          simp [LookupVendor, normalizeMAC_ne_nil_of_ne_nil h]
        · intro hmac
          simp only [ne_eq, h, not_false_iff, if_true] at hmac

/-- Witness for C10 at the concrete ARP token `aa:bb:cc:dd:ee:ff` and at a
failed ARP lookup. -/
theorem lookupVendor_unknown_vendor_witness :
    LookupVendor (strBytes "aa:bb:cc:dd:ee:ff") = strBytes "Unknown Vendor" ∧
    LookupVendor (strBytes "...") = strBytes "Unknown" ∧
    (workerMacVendor none).2 = [] := by
  refine ⟨?_, ?_, ?_⟩
  · exact lookupVendor_unknown_vendor.1 (strBytes "aa:bb:cc:dd:ee:ff") (by decide)
  · exact lookupVendor_unknown_vendor.2.1 (strBytes "...") (by decide)
  · exact (lookupVendor_unknown_vendor.2.2 none).2 (by decide)

theorem all_filter_self (p : Nat → Bool) (l : List Nat) :
    (l.filter p).all p = true := by
  rw [List.all_eq_true]
  intro a ha
  exact List.of_mem_filter ha

/-- C2 (counterexample): the AFP path stores the raw banner hostname with
no cleaning or validation.  The banner `"AFP (a.b)\n"` makes the worker
store the hostname `a.b`, which violates the §4.4 rule (it contains `.`,
outside `[A-Za-z0-9-]`). -/
theorem afp_hostname_violates_spec_rule :
    workerAFPHostnames (strBytes "AFP (a.b)\n") = [strBytes "a.b"] ∧
    specValidHostname (strBytes "a.b") = false := by
  decide

theorem specValid_of_clean_valid (name : List Nat)
    (hv : isValidHostname (cleanHostname name) = true) :
    specValidHostname (cleanHostname name) = true := by
  set c := cleanHostname name with hc
  have hall : c.all isAllowedHostB = true := by
    rw [hc]
    unfold cleanHostname
    exact all_filter_self _ _
  simp only [isValidHostname] at hv
  split at hv
  · cases hv
  · split at hv
    · cases hv
    · split at hv
      · cases hv
      · rename_i hlen hfirst hlast
        simp only [Bool.or_eq_true, not_or, decide_eq_true_eq, not_lt] at hlen
        simp only [Bool.not_eq_true, Bool.not_eq_true', Bool.not_eq_false] at hfirst hlast
        simp only [specValidHostname, hfirst, hlast, hall, Bool.and_true,
          Bool.true_and, Bool.and_eq_true, decide_eq_true_eq]
        omega

theorem findSome?_extractCandidate_valid :
    ∀ (names : List (List Nat)) (v : List Nat),
      names.findSome? extractCandidate = some v → specValidHostname v = true := by
  intro names
  induction names with
  | nil =>
    intro v h
    cases h
  | cons a t ih =>
    intro v h
    rw [List.findSome?_cons] at h
    cases hcand : extractCandidate a with
    | some w =>
      rw [hcand] at h
      cases h
      unfold extractCandidate at hcand
      split at hcand
      · split at hcand
        · rename_i hacc
          cases hcand
          exact specValid_of_clean_valid a hacc.2
        · cases hcand
      · cases hcand
    | none =>
      rw [hcand] at h
      exact ih v h

/-- C2 (amended): only the RDP/TLS-certificate path guarantees the §4.4
rule: every hostname accepted by `extractHostnameFromCert` (cleaned by
`cleanHostname` and checked by `isValidHostname`) satisfies the rule.
The DNS, AFP, SMB and mDNS paths store hostnames without this validation
(see the counterexample), and NetBIOS names are cleaned but not
validated. -/
theorem rdp_hostnames_satisfy_spec_rule (names : List (List Nat))
    (h : List Nat) (hok : extractHostnameFromCert names = .ok h) :
    specValidHostname h = true := by
  unfold extractHostnameFromCert at hok
  cases hfind : names.findSome? extractCandidate with
  | none =>
    rw [hfind] at hok
    cases hok
  | some v =>
    rw [hfind] at hok
    injection hok with hvh
    subst hvh
    exact findSome?_extractCandidate_valid names _ hfind

/-- Witness for the amended C2 theorem: the concrete certificate name
`MyHost.example.com:445` is accepted as `MyHost`, which satisfies the
spec rule. -/
theorem rdp_hostnames_satisfy_spec_rule_witness :
    specValidHostname (strBytes "MyHost") = true :=
  rdp_hostnames_satisfy_spec_rule [strBytes "MyHost.example.com:445"]
    (strBytes "MyHost") (by rfl)

theorem ite_some_none_assoc {α : Type} (p q : Prop) [Decidable p] [Decidable q]
    (x : α) :
    (if p then (if q then some x else none) else none) =
      if p ∧ q then some x else none := by
  by_cases hp : p <;> by_cases hq : q <;> simp [hp, hq]

theorem ite_guard_assoc {α : Type} (d a c : Prop) [Decidable d] [Decidable a]
    [Decidable c] (x : α) :
    (if d then none else if a then (if c then some x else none) else none) =
      if ¬d ∧ a ∧ c then some x else none := by
  by_cases hd : d <;> by_cases ha : a <;> by_cases hc : c <;> simp [hd, ha, hc]

theorem nb_pass1_eq (resp : List Nat) (n : Nat) :
    (List.range n).findSome? (fun i =>
      if (resp.getD (57 + i * 18 + 15) 0 = 0 ∨ resp.getD (57 + i * 18 + 15) 0 = 32) ∧
          (resp.getD (57 + i * 18 + 16) 0) * 256 + resp.getD (57 + i * 18 + 17) 0 = 1024 then
        if cleanHostname (trimRightSet [32, 0] ((resp.drop (57 + i * 18)).take 15)) ≠ [] then
          some (cleanHostname (trimRightSet [32, 0] ((resp.drop (57 + i * 18)).take 15)))
        else none
      else none) =
    ((List.range n).map (nbRecord resp)).findSome? (fun r =>
      if (r.2.1 = 0 ∨ r.2.1 = 32) ∧ r.2.2 = 1024 ∧ nbClean r.1 ≠ [] then
        some (nbClean r.1)
      else none) := by
  rw [List.findSome?_map]
  congr 1
  funext i
  simp only [Function.comp, nbRecord, nbClean]
  rw [ite_some_none_assoc]
  simp only [and_assoc]

theorem nb_pass2_eq (resp : List Nat) (n : Nat) :
    (List.range n).findSome? (fun i =>
      if ((resp.getD (57 + i * 18 + 16) 0) * 256 + resp.getD (57 + i * 18 + 17) 0) &&& 32768 ≠ 0 then
        none
      else if resp.getD (57 + i * 18 + 15) 0 = 0 ∨ resp.getD (57 + i * 18 + 15) 0 = 32 then
        if cleanHostname (trimRightSet [32, 0] ((resp.drop (57 + i * 18)).take 15)) ≠ [] then
          some (cleanHostname (trimRightSet [32, 0] ((resp.drop (57 + i * 18)).take 15)))
        else none
      else none) =
    ((List.range n).map (nbRecord resp)).findSome? (fun r =>
      if r.2.2 &&& 32768 = 0 ∧ (r.2.1 = 0 ∨ r.2.1 = 32) ∧ nbClean r.1 ≠ [] then
        some (nbClean r.1)
      else none) := by
  rw [List.findSome?_map]
  congr 1
  funext i
  simp only [Function.comp, nbRecord, nbClean]
  rw [ite_guard_assoc]
  simp only [ne_eq, not_not]

theorem getNetBIOSName_parse_eq_nbSpecParse (resp : List Nat) :
    getNetBIOSName_parse resp = nbSpecParse resp := by
  unfold getNetBIOSName_parse nbSpecParse
  by_cases h1 : resp.length < 57
  · simp only [h1, if_true]
  · simp only [h1, if_false]
    by_cases h2 : resp.length < 57 + (resp.getD 56 0) * 18
    · simp only [h2, if_true]
    · simp only [h2, if_false]
      rw [nb_pass1_eq resp (resp.getD 56 0), nb_pass2_eq resp (resp.getD 56 0)]
      cases hp1 : ((List.range (resp.getD 56 0)).map (nbRecord resp)).findSome? (fun r =>
          if (r.2.1 = 0 ∨ r.2.1 = 32) ∧ r.2.2 = 1024 ∧ nbClean r.1 ≠ [] then
            some (nbClean r.1)
          else none) with
      | some h =>
        simp [hp1, Option.orElse]
      | none =>
        cases hp2 : ((List.range (resp.getD 56 0)).map (nbRecord resp)).findSome? (fun r =>
            if r.2.2 &&& 32768 = 0 ∧ (r.2.1 = 0 ∨ r.2.1 = 32) ∧ nbClean r.1 ≠ [] then
              some (nbClean r.1)
            else none) with
        | some h => simp [hp1, hp2, Option.orElse]
        | none => simp [hp1, hp2, Option.orElse]

/-- C5 (counterexample): the parser does not return the first matching
name "trimmed of spaces and NULs" — it returns the `cleanHostname`-cleaned
form.  On a record whose name bytes are `"A B"` (padded), the claim
predicts `"A B"` but the code returns `"AB"` (the interior space is dropped
by `cleanHostname`'s `[A-Za-z0-9-]` filter). -/
theorem nbns_returns_cleaned_not_trimmed :
    getNetBIOSName_parse nbCounterexampleResp = .ok (strBytes "AB") ∧
    trimRightSet [32, 0] ((nbCounterexampleResp.drop 57).take 15) = strBytes "A B" ∧
    strBytes "AB" ≠ strBytes "A B" := by
  refine ⟨by rfl, by decide, by decide⟩

set_option maxRecDepth 10000 in
/-- C5 (amended): the NBNS parser rejects every input shorter than 57
bytes and every input shorter than `57 + 18*num_names`; otherwise it walks
the 18-byte records at offset 57 and returns the *hostname-cleaned* form
(strip from `:`, label before the first `.`, keep only `[A-Za-z0-9-]`) of
the trimmed name of the first record with type `0x00`/`0x20` and flags
exactly `0x0400` whose cleaned form is non-empty, or failing that of the
first such-typed record whose flags lack the `0x8000` group bit; being
built from `getD`/`take`/`drop` behind the two length guards, it is total
(never panics).  `nbSpecParse` restates this record walk; the spec §8
scenario-3 response yields `"MACHINE"`. -/
theorem nbns_parser_amended :
    (∀ resp : List Nat, getNetBIOSName_parse resp = nbSpecParse resp) ∧
    (∀ resp : List Nat, resp.length < 57 →
      getNetBIOSName_parse resp = .error "response too short") ∧
    (∀ resp : List Nat, 57 ≤ resp.length →
      resp.length < 57 + (resp.getD 56 0) * 18 →
      getNetBIOSName_parse resp = .error "incomplete response") ∧
    getNetBIOSName_parse nbScenario3Resp = .ok (strBytes "MACHINE") := by
  refine ⟨getNetBIOSName_parse_eq_nbSpecParse, ?_, ?_, by rfl⟩
  · intro resp h
    unfold getNetBIOSName_parse
    simp only [h, if_true]
  · intro resp h1 h2
    unfold getNetBIOSName_parse
    rw [if_neg (by omega), if_pos h2]

/-- Witness for the amended C5 theorem: the empty response and a 57-byte
response announcing 5 names are both rejected. -/
theorem nbns_parser_amended_witness :
    getNetBIOSName_parse [] = .error "response too short" ∧
    getNetBIOSName_parse (List.replicate 56 0 ++ [5]) = .error "incomplete response" := by
  constructor
  · exact nbns_parser_amended.2.1 [] (by decide)
  · exact nbns_parser_amended.2.2.1 (List.replicate 56 0 ++ [5]) (by decide) (by decide)

theorem land_six_ne_zero_iff (n : Nat) :
    n &&& 6 ≠ 0 ↔ (n.testBit 1 = true ∨ n.testBit 2 = true) := by
  constructor
  · intro h
    by_contra hcon
    push_neg at hcon
    obtain ⟨h1, h2⟩ := hcon
    apply h
    apply Nat.eq_of_testBit_eq
    intro i
    rw [Nat.testBit_and, Nat.zero_testBit]
    match i with
    | 0 => simp
    | 1 => simp [Bool.eq_false_iff.mpr h1]
    | 2 => simp [Bool.eq_false_iff.mpr h2]
    | j + 3 =>
      have h6 : Nat.testBit 6 (j + 3) = false :=
        Nat.testBit_lt_two_pow (by
          calc 6 < 2 ^ 3 := by norm_num
          _ ≤ 2 ^ (j + 3) := Nat.pow_le_pow_right (by norm_num) (by omega))
      simp [h6]
  · intro h hz
    rcases h with h | h
    · have : (n &&& 6).testBit 1 = true := by
        rw [Nat.testBit_and, h]
        decide
      rw [hz, Nat.zero_testBit] at this
      cases this
    · have : (n &&& 6).testBit 2 = true := by
        rw [Nat.testBit_and, h]
        decide
      rw [hz, Nat.zero_testBit] at this
      cases this

/-- C6: the RDP resolver sends exactly the 19-byte negotiation request
`03 00 00 13 0e e0 00 00 00 00 00 01 00 08 00 07 00 00 00`; it rejects
short responses, bad TPKT magic and bad COTP CC; otherwise it reads the
32-bit little-endian selected protocol at bytes 15-18 and proceeds to the
TLS branch iff the TLS (`0x02`) or CredSSP (`0x04`) bit is set
(`rdpSpecParse` restates this); protocol `02 00 00 00` enters the TLS
branch, protocol `01 00 00 00` yields the "secure protocols not
supported" error. -/
theorem rdp_negotiation_behaviour :
    rdpRequest = [0x03, 0x00, 0x00, 0x13, 0x0e, 0xe0, 0x00, 0x00, 0x00, 0x00,
      0x00, 0x01, 0x00, 0x08, 0x00, 0x07, 0x00, 0x00, 0x00] ∧
    rdpRequest.length = 19 ∧
    (∀ resp : List Nat, getRDPHostname_parse resp = rdpSpecParse resp) ∧
    getRDPHostname_parse (rdpResponse 2 0 0 0) = .ok 2 ∧
    getRDPHostname_parse (rdpResponse 1 0 0 0) = .error "secure protocols not supported" := by
  refine ⟨rfl, rfl, ?_, by rfl, by rfl⟩
  intro resp
  unfold getRDPHostname_parse rdpSpecParse
  by_cases h1 : resp.length < 19
  · rw [if_pos h1, if_pos h1]
  · rw [if_neg h1, if_neg h1]
    by_cases h2 : resp.getD 0 0 ≠ 3 ∨ resp.getD 1 0 ≠ 0
    · rw [if_pos h2,
        if_pos (show ¬(resp.getD 0 0 = 3 ∧ resp.getD 1 0 = 0) from by tauto)]
    · rw [if_neg h2,
        if_neg (show ¬¬(resp.getD 0 0 = 3 ∧ resp.getD 1 0 = 0) from by tauto)]
      by_cases h3 : resp.getD 5 0 ≠ 0xd0
      · rw [if_pos h3, if_pos h3]
      · rw [if_neg h3, if_neg h3]
        by_cases h4 : rdpSelectedProtocol resp &&& 6 ≠ 0
        · rw [if_pos h4, if_pos ((land_six_ne_zero_iff _).mp h4)]
        · rw [if_neg h4, if_neg (fun hc => h4 ((land_six_ne_zero_iff _).mpr hc))]

theorem ipLoop_exit (fuel blk szLog x : Nat)
    (h : ipnetContains blk szLog x = false) :
    ipLoop fuel blk szLog x = [] := by
  cases fuel with
  | zero => rfl
  | succ f => simp [ipLoop, h]

theorem ipLoop_block (szLog : Nat) (hsz : szLog ≤ 31) (blk : Nat)
    (hblk : blk < 2 ^ (32 - szLog)) :
    ∀ (m j fuel : Nat), 1 ≤ m → m + j = 2 ^ szLog → m ≤ fuel →
      ipLoop fuel blk szLog (blk * 2 ^ szLog + j) =
        (List.range m).map (fun t => blk * 2 ^ szLog + j + t) := by
  intro m
  induction m with
  | zero => omega
  | succ m ih =>
    intro j fuel hm hmj hfuel
    have hS : 0 < 2 ^ szLog := Nat.pos_pow_of_pos _ (by norm_num)
    have hj : j < 2 ^ szLog := by omega
    obtain ⟨f, rfl⟩ : ∃ f, fuel = f + 1 := ⟨fuel - 1, by omega⟩
    have hcont : ipnetContains blk szLog (blk * 2 ^ szLog + j) = true := by
      simp only [ipnetContains, beq_iff_eq]
      rw [Nat.mul_comm blk (2 ^ szLog), Nat.mul_add_div hS,
        Nat.div_eq_of_lt hj]
      omega
    rw [ipLoop, if_pos hcont]
    have hble : (blk + 1) * 2 ^ szLog ≤ 2 ^ 32 := by
      have h1 : blk + 1 ≤ 2 ^ (32 - szLog) := hblk
      calc (blk + 1) * 2 ^ szLog ≤ 2 ^ (32 - szLog) * 2 ^ szLog :=
            Nat.mul_le_mul_right _ h1
        _ = 2 ^ 32 := by
            rw [← Nat.pow_add]
            congr 1
            omega
    cases m with
    | zero =>
      have hjS : j + 1 = 2 ^ szLog := by omega
      have hnext : blk * 2 ^ szLog + j + 1 = (blk + 1) * 2 ^ szLog := by
        rw [Nat.add_mul]
        omega
      by_cases hwrap : (blk + 1) * 2 ^ szLog = 2 ^ 32
      · have hinc : inc32 (blk * 2 ^ szLog + j) = 0 := by
          simp only [inc32]
          rw [hnext, hwrap, Nat.mod_self]
        rw [hinc]
        have hblk1 : 1 ≤ blk := by
          by_contra hb0
          have : blk = 0 := by omega
          subst this
          norm_num at hwrap
          have : szLog = 32 := Nat.pow_right_injective (by norm_num) hwrap
          omega
        have hzero : ipnetContains blk szLog 0 = false := by
          simp only [ipnetContains, beq_eq_false_iff_ne, ne_eq]
          rw [Nat.zero_div]
          omega
        rw [ipLoop_exit _ _ _ _ hzero]
        simp [List.range_succ]
      · have hlt : (blk + 1) * 2 ^ szLog < 2 ^ 32 := by omega
        have hinc : inc32 (blk * 2 ^ szLog + j) = (blk + 1) * 2 ^ szLog := by
          simp only [inc32]
          rw [hnext]
          exact Nat.mod_eq_of_lt hlt
        rw [hinc]
        have hnc : ipnetContains blk szLog ((blk + 1) * 2 ^ szLog) = false := by
          simp only [ipnetContains, beq_eq_false_iff_ne, ne_eq]
          rw [Nat.mul_div_cancel _ hS]
          omega
        rw [ipLoop_exit _ _ _ _ hnc]
        simp [List.range_succ]
    | succ m' =>
      have hinc : inc32 (blk * 2 ^ szLog + j) = blk * 2 ^ szLog + (j + 1) := by
        simp only [inc32]
        apply Nat.mod_eq_of_lt
        calc blk * 2 ^ szLog + j + 1 < blk * 2 ^ szLog + 2 ^ szLog := by omega
          _ = (blk + 1) * 2 ^ szLog := by rw [Nat.add_mul]; omega
          _ ≤ 2 ^ 32 := hble
      rw [hinc]
      have hstep := ih (j + 1) f (by omega) (by omega) (by omega)
      rw [hstep]
      conv_rhs => rw [List.range_succ_eq_map]
      simp only [List.map_cons, List.map_map]
      refine List.cons_eq_cons.mpr ⟨by omega, ?_⟩
      apply List.map_congr_left
      intro t ht
      simp only [Function.comp_apply]
      omega

theorem GetAllIPs_block_eq (base pfx : Nat) (hb : base < 2 ^ 32)
    (hp1 : 1 ≤ pfx) (hp2 : pfx ≤ 32) :
    ipLoop (2 ^ 32 + 1) (base / 2 ^ (32 - pfx)) (32 - pfx)
        (base / 2 ^ (32 - pfx) * 2 ^ (32 - pfx)) =
      (List.range (2 ^ (32 - pfx))).map
        (fun t => base / 2 ^ (32 - pfx) * 2 ^ (32 - pfx) + t) := by
  have hsz : 32 - pfx ≤ 31 := by omega
  have hS : 0 < 2 ^ (32 - pfx) := Nat.pos_pow_of_pos _ (by norm_num)
  have hblk : base / 2 ^ (32 - pfx) < 2 ^ (32 - (32 - pfx)) := by
    rw [Nat.div_lt_iff_lt_mul hS]
    calc base < 2 ^ 32 := hb
      _ = 2 ^ (32 - (32 - pfx)) * 2 ^ (32 - pfx) := by
          rw [← Nat.pow_add]
          congr 1
          omega
  have hfuel : 2 ^ (32 - pfx) ≤ 2 ^ 32 + 1 := by
    calc 2 ^ (32 - pfx) ≤ 2 ^ 32 := Nat.pow_le_pow_right (by norm_num) (by omega)
      _ ≤ 2 ^ 32 + 1 := by omega
  have h := ipLoop_block (32 - pfx) hsz (base / 2 ^ (32 - pfx)) hblk
    (2 ^ (32 - pfx)) 0 (2 ^ 32 + 1) (Nat.one_le_two_pow) (by omega) hfuel
  simpa using h

theorem two_pow_gt_two_iff (k : Nat) : 2 < 2 ^ k ↔ 4 ≤ 2 ^ k := by
  match k with
  | 0 => norm_num
  | 1 => norm_num
  | k + 2 =>
    have h4 : 4 ≤ 2 ^ (k + 2) := by
      calc (4 : Nat) = 2 ^ 2 := by norm_num
        _ ≤ 2 ^ (k + 2) := Nat.pow_le_pow_right (by norm_num) (by omega)
    constructor <;> intro <;> omega

/-- C4 (amended): for every CIDR block with prefix length 1-32 the
enumerator returns the block's addresses in ascending order, stripping the
first (network) and last (broadcast) address exactly when the block has at
least four addresses (the Go test `len(ips) > 2` coincides with `≥ 4` on
power-of-two block sizes).  The `/0` block is excluded: there the
enumeration loop never terminates (see the counterexample). -/
theorem getAllIPs_strips_iff_at_least_four (base pfx : Nat)
    (hb : base < 2 ^ 32) (hp1 : 1 ≤ pfx) (hp2 : pfx ≤ 32) :
    GetAllIPs base pfx =
      (if 4 ≤ 2 ^ (32 - pfx) then
        (((List.range (2 ^ (32 - pfx))).map
          (fun t => base / 2 ^ (32 - pfx) * 2 ^ (32 - pfx) + t)).drop 1).dropLast
      else (List.range (2 ^ (32 - pfx))).map
        (fun t => base / 2 ^ (32 - pfx) * 2 ^ (32 - pfx) + t)) ∧
    (GetAllIPs base pfx).Pairwise (· < ·) := by
  have hloop := GetAllIPs_block_eq base pfx hb hp1 hp2
  have hlen : (ipLoop (2 ^ 32 + 1) (base / 2 ^ (32 - pfx)) (32 - pfx)
      (base / 2 ^ (32 - pfx) * 2 ^ (32 - pfx))).length = 2 ^ (32 - pfx) := by
    rw [hloop]
    simp
  have hsorted : ((List.range (2 ^ (32 - pfx))).map
      (fun t => base / 2 ^ (32 - pfx) * 2 ^ (32 - pfx) + t)).Pairwise (· < ·) := by
    refine List.Pairwise.map _ ?_ (List.pairwise_lt_range _)
    intro a b hab
    omega
  have hmain : GetAllIPs base pfx =
      (if 4 ≤ 2 ^ (32 - pfx) then
        (((List.range (2 ^ (32 - pfx))).map
          (fun t => base / 2 ^ (32 - pfx) * 2 ^ (32 - pfx) + t)).drop 1).dropLast
      else (List.range (2 ^ (32 - pfx))).map
        (fun t => base / 2 ^ (32 - pfx) * 2 ^ (32 - pfx) + t)) := by
    unfold GetAllIPs
    simp only [hloop, List.length_map, List.length_range]
    by_cases h4 : 4 ≤ 2 ^ (32 - pfx)
    · rw [if_pos ((two_pow_gt_two_iff _).mpr h4), if_pos h4]
    · rw [if_neg (fun hgt => h4 ((two_pow_gt_two_iff _).mp hgt)), if_neg h4]
  refine ⟨hmain, ?_⟩
  rw [hmain]
  by_cases h4 : 4 ≤ 2 ^ (32 - pfx)
  · rw [if_pos h4]
    exact hsorted.sublist ((List.dropLast_sublist _).trans (List.drop_sublist _ _))
  · rw [if_neg h4]
    exact hsorted

/-- Witness for the amended C4 theorem at `192.168.1.0/30`: the enumerator
yields exactly `[192.168.1.1, 192.168.1.2]` (spec §8 scenario 1). -/
theorem getAllIPs_witness_slash30 :
    GetAllIPs 3232235776 30 = [3232235777, 3232235778] := by
  have h := getAllIPs_strips_iff_at_least_four 3232235776 30
    (by norm_num) (by norm_num) (by norm_num)
  rw [h.1]
  decide

theorem ipLoop_zero_prefix_consumes_fuel :
    ∀ (fuel x : Nat), x < 2 ^ 32 → (ipLoop fuel 0 32 x).length = fuel := by
  intro fuel
  induction fuel with
  | zero =>
    intro x _
    rfl
  | succ f ih =>
    intro x hx
    have hc : ipnetContains 0 32 x = true := by
      simp only [ipnetContains, beq_iff_eq]
      omega
    rw [ipLoop, if_pos hc]
    simp only [List.length_cons]
    rw [ih (inc32 x) (Nat.mod_lt _ (by positivity))]

/-- C4 (counterexample): on the `/0` block the Go enumeration loop never
terminates: every IPv4 address is contained in the block, and `inc` wraps
`255.255.255.255` back to `0.0.0.0`, which the block still contains.  In
the fuelled model the loop consumes any amount of fuel — even
`2^32 + 1` steps, more than the block's `2^32` addresses — so `GetAllIPs`
on a parsed `/0` never returns the block's address list (the claim's
"every parsed CIDR block" fails at `0.0.0.0/0`); the fuelled `GetAllIPs`
would also keep the wrong number of addresses (`2^32 - 1` after
stripping instead of the claimed `2^32 - 2`). -/
theorem getAllIPs_slash_zero_diverges :
    (ipLoop (2 ^ 32 + 1) 0 32 0).length = 2 ^ 32 + 1 ∧
    (GetAllIPs 0 0).length = 2 ^ 32 - 1 ∧ (2 ^ 32 - 1 : Nat) ≠ 2 ^ 32 - 2 := by
  have h := ipLoop_zero_prefix_consumes_fuel (2 ^ 32 + 1) 0 (by norm_num)
  refine ⟨h, ?_, by norm_num⟩
  unfold GetAllIPs
  norm_num at h ⊢
  rw [if_pos (by rw [h]; norm_num)]
  simp [h]

/-- C3: `Stop` on a fresh stop channel succeeds, but a second `Stop`
without an intervening `ScanNetwork` (which is what replaces `stopChan`)
closes an already-closed channel and panics — it is not a no-op.  This
contradicts the claim and the spec's no-panic policy (§7); the code is the
slip (a classic Go double-close bug). -/
theorem stop_twice_panics :
    Scanner.Stop false = .ok true ∧
    (Scanner.Stop false).bind Scanner.Stop = .error "close of closed channel" := by
  constructor <;> rfl

/-- C9 (counterexample): calling `ScanNetwork` while a scan is running is
not rejected — it returns `.ok` and clobbers the running scan's state
(counters zeroed, device map cleared, stop channel replaced), contradicting
"rejected with a visible error and leaves the running scan's state
unchanged". -/
theorem scanNetwork_second_call_not_rejected :
    ScanNetwork runningScanState (some (3232235776, 30)) 50 =
      .ok { devices := [], totalIPs := 2, scannedCount := 0, sentCount := 0,
            stopChanGeneration := 2 } ∧
    runningScanState.scannedCount = 17 ∧
    runningScanState.devices ≠ [] := by
  refine ⟨by rfl, by rfl, by decide⟩

/-- C9 (amended): the scan-in-progress rejection lives one layer above the
engine: `Server.StartScan` rejects a second scan with the visible error
`"scan already in progress"` and leaves the server state unchanged, while
`Scanner.ScanNetwork` itself accepts the call and resets the running
scan's state (see the counterexample). -/
theorem startScan_rejects_when_active (st : ServerState)
    (h : st.scanActive = true) :
    Server.StartScan st = .error "scan already in progress" := by
  unfold Server.StartScan
  rw [if_pos h]

/-- Witness for the amended C9 theorem on a concrete active server. -/
theorem startScan_rejects_when_active_witness :
    Server.StartScan ⟨true, []⟩ = .error "scan already in progress" :=
  startScan_rejects_when_active ⟨true, []⟩ (by rfl)

/-- C1 (counterexample): on the two-address block of `192.168.1.0/30`,
stop requested after one enqueue (before the producer enqueued every
address) with that one IP fully scanned: the drain credits nothing and the
final `scannedCount` is 1 ≠ 2 = `total_ips`.  The drain only reaches
`sentCount`, not `total_ips`. -/
theorem drain_early_stop_counterexample :
    finalScannedCount (GetAllIPs 3232235776 30).length (some 1) 1 = 1 ∧
    ((GetAllIPs 3232235776 30).length : Int) = 2 ∧
    finalScannedCount (GetAllIPs 3232235776 30).length (some 1) 1 ≠
      ((GetAllIPs 3232235776 30).length : Int) := by
  refine ⟨by rfl, by rfl, by decide⟩

/-- C1 (amended): at the done signal the drained `scannedCount` equals
`sentCount` (for any worker progress `workerScanned ≤ sentCount`), and it
equals `total_ips` exactly in the runs where the producer enqueued every
address (no stop during enumeration).  A scan stopped mid-enumeration ends
with `scannedCount = sentCount < total_ips`. -/
theorem scanned_count_at_done (total : Nat) (stopAfter : Option Nat)
    (ws : Nat) (hws : ws ≤ producerSent total stopAfter) :
    finalScannedCount total stopAfter ws = (producerSent total stopAfter : Int) ∧
    (stopAfter = none → finalScannedCount total stopAfter ws = (total : Int)) := by
  have h1 : finalScannedCount total stopAfter ws =
      (producerSent total stopAfter : Int) := by
    unfold finalScannedCount drainRemaining
    have hle : (ws : Int) ≤ (producerSent total stopAfter : Int) := by
      exact_mod_cast hws
    split <;> omega
  refine ⟨h1, fun hnone => ?_⟩
  subst hnone
  rw [h1]
  simp [producerSent]

/-- Witness for the amended C1 theorem: a completed two-address scan with
one worker increment pending at join time drains to
`scannedCount = total_ips = 2`. -/
theorem scanned_count_at_done_witness :
    finalScannedCount 2 none 1 = (producerSent 2 none : Int) ∧
    (none = (none : Option Nat) → finalScannedCount 2 none 1 = (2 : Int)) :=
  scanned_count_at_done 2 none 1 (by decide)

theorem sink_step_facts (st : SinkState) (d : DeviceRec) :
    (workerRecord st d).devices = (d.ip, d) :: st.devices ∧
    ((workerRecord st d).chanBuf = st.chanBuf ∨
      (d.up = true ∧ (workerRecord st d).chanBuf = st.chanBuf ++ [d])) := by
  unfold workerRecord publishUp
  by_cases hup : d.up = true
  · rw [if_pos hup]
    by_cases hroom : st.chanBuf.length < resultsChanCap
    · rw [if_pos hroom]
      exact ⟨rfl, Or.inr ⟨hup, rfl⟩⟩
    · rw [if_neg hroom]
      exact ⟨rfl, Or.inl rfl⟩
  · rw [if_neg hup]
    exact ⟨rfl, Or.inl rfl⟩

theorem lookup_cons_ne (k : List Nat) (d : DeviceRec)
    (es : List (List Nat × DeviceRec)) (e : DeviceRec) (hne : e.ip ≠ k) :
    List.lookup e.ip ((k, d) :: es) = List.lookup e.ip es := by
  have hbeq : (e.ip == k) = false := beq_eq_false_iff_ne.mpr hne
  simp only [List.lookup, hbeq]

theorem sink_invariant :
    ∀ (ds : List DeviceRec) (st : SinkState),
      (ds.map DeviceRec.ip).Nodup →
      (∀ d ∈ st.chanBuf, d.up = true ∧ List.lookup d.ip st.devices = some d) →
      (∀ d ∈ st.chanBuf, d.ip ∉ ds.map DeviceRec.ip) →
      (∀ d ∈ (ds.foldl workerRecord st).chanBuf, d.up = true ∧
        List.lookup d.ip (ds.foldl workerRecord st).devices = some d) ∧
      ((ds.foldl workerRecord st).chanBuf).Sublist
        (st.chanBuf ++ ds.filter (fun d => d.up)) := by
  intro ds
  induction ds with
  | nil =>
    intro st _ hbuf _
    refine ⟨hbuf, ?_⟩
    simp
  | cons d ds ih =>
    intro st hnd hbuf hdisj
    simp only [List.map_cons, List.nodup_cons] at hnd
    obtain ⟨hd_nin, hnd'⟩ := hnd
    simp only [List.foldl_cons]
    obtain ⟨hdev, hchan⟩ := sink_step_facts st d
    have hbuf' : ∀ e ∈ (workerRecord st d).chanBuf,
        e.up = true ∧ List.lookup e.ip (workerRecord st d).devices = some e := by
      intro e he
      rcases hchan with hc | ⟨hup, hc⟩
      · rw [hc] at he
        have hne : e.ip ≠ d.ip := by
          intro heq
          exact (hdisj e he) (by simp [heq])
        rw [hdev, lookup_cons_ne _ _ _ _ hne]
        exact hbuf e he
      · rw [hc] at he
        rcases List.mem_append.mp he with he' | he'
        · have hne : e.ip ≠ d.ip := by
            intro heq
            exact (hdisj e he') (by simp [heq])
          rw [hdev, lookup_cons_ne _ _ _ _ hne]
          exact hbuf e he'
        · rw [List.mem_singleton] at he'
          subst he'
          rw [hdev]
          exact ⟨hup, by simp [List.lookup]⟩
    have hdisj' : ∀ e ∈ (workerRecord st d).chanBuf,
        e.ip ∉ ds.map DeviceRec.ip := by
      intro e he
      rcases hchan with hc | ⟨_, hc⟩
      · rw [hc] at he
        exact fun hmem => (hdisj e he) (by simp [hmem])
      · rw [hc] at he
        rcases List.mem_append.mp he with he' | he'
        · exact fun hmem => (hdisj e he') (by simp [hmem])
        · rw [List.mem_singleton] at he'
          subst he'
          exact hd_nin
    obtain ⟨hmain, hsub⟩ := ih (workerRecord st d) hnd' hbuf' hdisj'
    refine ⟨hmain, ?_⟩
    rw [List.filter_cons]
    rcases hchan with hc | ⟨hup, hc⟩
    · rw [hc] at hsub
      refine hsub.trans (List.Sublist.append_left ?_ _)
      by_cases hup : d.up = true
      · rw [if_pos hup]
        exact List.sublist_cons_self _ _
      · rw [if_neg hup]
    · rw [hc] at hsub
      rw [if_pos hup]
      rw [List.append_assoc, List.singleton_append] at hsub
      exact hsub

/-- C8: when a worker publishes a reachable device and the results channel
(capacity 100) is full, the device is dropped from the stream only: the
non-blocking send leaves the channel unchanged, the device map still holds
the device's record, and a warning is logged; consequently the results
stream is a subsequence of the published Up devices, and every streamed
device sits in the device map with status Up (over any scan whose IPs are
distinct). -/
theorem results_channel_full_drops_stream_only :
    (∀ (st : SinkState) (d : DeviceRec), st.chanBuf.length = resultsChanCap →
      (publishUp st d).chanBuf = st.chanBuf ∧
      List.lookup d.ip (publishUp st d).devices = some d ∧
      (publishUp st d).warnings = st.warnings ++ [d.ip]) ∧
    (∀ ds : List DeviceRec, (ds.map DeviceRec.ip).Nodup →
      ((runSink ds).chanBuf).Sublist (ds.filter (fun d => d.up)) ∧
      (∀ d ∈ (runSink ds).chanBuf, d.up = true ∧
        List.lookup d.ip (runSink ds).devices = some d)) := by
  constructor
  · intro st d hfull
    unfold publishUp
    rw [if_neg (by omega)]
    exact ⟨rfl, by simp [List.lookup], rfl⟩
  · intro ds hnd
    have hempty1 : ∀ d ∈ (⟨[], [], []⟩ : SinkState).chanBuf,
        d.up = true ∧ List.lookup d.ip (⟨[], [], []⟩ : SinkState).devices = some d := by
      intro d hd
      cases hd
    have hempty2 : ∀ d ∈ (⟨[], [], []⟩ : SinkState).chanBuf,
        d.ip ∉ ds.map DeviceRec.ip := by
      intro d hd
      cases hd
    have h := sink_invariant ds ⟨[], [], []⟩ hnd hempty1 hempty2
    refine ⟨?_, h.1⟩
    have h2 := h.2
    simpa [runSink] using h2

/-- Witness for C8: a full 100-element channel rejects a new Up device
without changing the channel, and a concrete two-device scan streams a
subsequence of its Up devices. -/
theorem results_channel_drops_witness :
    (publishUp ⟨[], List.replicate 100 ⟨[], true⟩, []⟩
        ⟨strBytes "10.0.0.9", true⟩).chanBuf = List.replicate 100 ⟨[], true⟩ ∧
    ((runSink [⟨strBytes "a", true⟩, ⟨strBytes "b", false⟩]).chanBuf).Sublist
      ([⟨strBytes "a", true⟩, ⟨strBytes "b", false⟩].filter (fun d => d.up)) := by
  constructor
  · exact (results_channel_full_drops_stream_only.1
      ⟨[], List.replicate 100 ⟨[], true⟩, []⟩ ⟨strBytes "10.0.0.9", true⟩
      (by decide)).1
  · exact (results_channel_full_drops_stream_only.2
      [⟨strBytes "a", true⟩, ⟨strBytes "b", false⟩] (by decide)).1
